import Mathlib

/-!
Verification of the document ingestion / retrieval / reranking core of the
hackathon-milvum repository (Python backend), as a shallow embedding in Lean.

Modelling conventions:
* Python `str` is modelled as Lean `String` (or `List Char` where character
  indexing matters); Python `int` as `Int` or `Nat`; Python `float` as `ℚ`
  (the claims under study are about ordering, clamping and control flow, not
  about rounding, and the one float constant that matters, `300 * 0.7`,
  rounds to exactly `210.0` in IEEE double arithmetic, so the rational model
  agrees with the float code on it).
* External collaborators (the numpy norm, the embedding provider, the Cohere
  rerank provider, the vector store) are passed in as function parameters,
  following the component boundaries of the design: the code under
  verification is the pure orchestration around them.
* Fallible code is modelled with `Except`/`Option`; a Python `while` loop
  that may diverge is modelled with explicit fuel, with termination stated
  as existence of sufficient fuel.
-/

namespace Milvum

/-! ### Python sequence primitives -/

/-- Python index normalisation for slicing a sequence of length `n`:
a negative index counts from the end (clamped at 0), a nonnegative index is
clamped at `n`. -/
def pyIndex (n : Nat) (i : Int) : Nat :=
  if i < 0 then ((n : Int) + i).toNat else min i.toNat n

/-- Python slice `l[a:b]` (step 1). -/
def pySlice {α : Type} (l : List α) (a b : Int) : List α :=
  let s := pyIndex l.length a
  let e := pyIndex l.length b
  (l.drop s).take (e - s)

/-- Python slice `l[a:b]` with nonnegative bounds, as used in the semantic
chunker where indices are loop counters that never go negative. -/
def pySliceNat {α : Type} (l : List α) (a b : Nat) : List α :=
  (l.drop a).take (b - a)

/-- Python `sorted(list(set(xs)))` for a list of ints: the ascending
enumeration of the distinct values. -/
def sortedDistinct (l : List Nat) : List Nat :=
  l.dedup.mergeSort (fun a b => decide (a ≤ b))

/-- Python `s1 or s2` for an optional string: `None` and `""` are falsy. -/
def pyOrStr (a : Option String) (b : String) : String :=
  match a with
  | none => b
  | some s => if s = "" then b else s

/-- Python `' '.join(ts)`. -/
def joinSpace (ts : List String) : String :=
  String.intercalate " " ts

/-- First `n` characters of a string, Python `s[:n]` for `n ≥ 0`. -/
def strTake (s : String) (n : Nat) : String :=
  String.mk (s.toList.take n)

/-! ### Cosine similarity, two variants (document_pipeline.py vs citation_service.py)

`np.dot` on equal-length vectors is the sum of pointwise products; the numpy
Euclidean norm `np.linalg.norm` involves a square root and is passed in as a
collaborator function `norm`; the predicate `IsEuclidOn` states, where
needed, that `norm` behaves like the Euclidean norm on a given vector. -/

/-- `np.dot(vec1, vec2)` for 1-d vectors. -/
def dotQ (v1 v2 : List ℚ) : ℚ :=
  (List.zipWith (· * ·) v1 v2).sum

/-- `np.mean(l)` for a nonempty list (the callers guard emptiness). -/
def meanQ (l : List ℚ) : ℚ :=
  l.sum / (l.length : ℚ)

/-- `norm` behaves like the numpy Euclidean norm on `v`: it is nonnegative
and its square is the sum of squares of the entries. -/
def IsEuclidOn (norm : List ℚ → ℚ) (v : List ℚ) : Prop :=
  0 ≤ norm v ∧ norm v ^ 2 = dotQ v v

/-- `DocumentPipeline.cosine_similarity` (document_pipeline.py:89-98): the raw
cosine in [-1,1], with 0 returned when either norm is zero. -/
def cosine_similarity (norm : List ℚ → ℚ) (vec1 vec2 : List ℚ) : ℚ :=
  let dot_product := dotQ vec1 vec2
  let norm1 := norm vec1
  let norm2 := norm vec2
  if norm1 = 0 ∨ norm2 = 0 then 0
  else dot_product / (norm1 * norm2)

/-- `CitationService._calculate_cosine_similarity` (citation_service.py:22-49):
the same raw cosine, then renormalised to [0,1] via `(cos+1)/2` and clamped.
The `try/except` around pure numpy arithmetic cannot fire and is not
modelled. -/
def calculate_cosine_similarity (norm : List ℚ → ℚ) (vec1 vec2 : List ℚ) : ℚ :=
  let dot_product := dotQ vec1 vec2
  let norm1 := norm vec1
  let norm2 := norm vec2
  if norm1 = 0 ∨ norm2 = 0 then 0
  else max 0 (min 1 ((dot_product / (norm1 * norm2) + 1) / 2))

/-- Sum of squares is nonnegative. -/
theorem dotQ_self_nonneg (v : List ℚ) : 0 ≤ dotQ v v := by
  induction v with
  | nil => simp [dotQ]
  | cons a t ih =>
    have h : dotQ (a :: t) (a :: t) = a * a + dotQ t t := by
      simp [dotQ, List.zipWith]
    rw [h]
    have := mul_self_nonneg a
    linarith

/-- Cauchy–Schwarz for `dotQ` (lists of possibly different lengths; `zipWith`
truncation only shrinks the left side). -/
theorem dotQ_sq_le (v1 v2 : List ℚ) :
    dotQ v1 v2 ^ 2 ≤ dotQ v1 v1 * dotQ v2 v2 := by
  induction v1 generalizing v2 with
  | nil =>
    simp [dotQ]
  | cons a t1 ih =>
    cases v2 with
    | nil =>
      simp [dotQ]
    | cons b t2 =>
      have hD := ih t2
      have hA := dotQ_self_nonneg t1
      have hB := dotQ_self_nonneg t2
      have e1 : dotQ (a :: t1) (b :: t2) = a * b + dotQ t1 t2 := by
        simp [dotQ, List.zipWith]
      have e2 : dotQ (a :: t1) (a :: t1) = a * a + dotQ t1 t1 := by
        simp [dotQ, List.zipWith]
      have e3 : dotQ (b :: t2) (b :: t2) = b * b + dotQ t2 t2 := by
        simp [dotQ, List.zipWith]
      rw [e1, e2, e3]
      by_cases hB0 : dotQ t2 t2 = 0
      · have hD0 : dotQ t1 t2 = 0 := by
          nlinarith [sq_nonneg (dotQ t1 t2)]
        rw [hB0, hD0]
        nlinarith [mul_nonneg hA (mul_self_nonneg b)]
      · have hBpos : 0 < dotQ t2 t2 := lt_of_le_of_ne hB (Ne.symm hB0)
        have key : dotQ t2 t2 *
            ((a * a + dotQ t1 t1) * (b * b + dotQ t2 t2) - (a * b + dotQ t1 t2) ^ 2)
            = (a * dotQ t2 t2 - b * dotQ t1 t2) ^ 2
              + (b * b + dotQ t2 t2) * (dotQ t1 t1 * dotQ t2 t2 - dotQ t1 t2 ^ 2) := by
          ring
        have h1 : 0 ≤ (a * dotQ t2 t2 - b * dotQ t1 t2) ^ 2 := sq_nonneg _
        have h2 : 0 ≤ (b * b + dotQ t2 t2) * (dotQ t1 t1 * dotQ t2 t2 - dotQ t1 t2 ^ 2) := by
          apply mul_nonneg
          · nlinarith [mul_self_nonneg b]
          · linarith
        nlinarith [key, h1, h2, hBpos]

/-! ### Data model of the document pipeline (document_pipeline.py) -/

/-- One sentence with its page number, as produced by
`extract_text_with_pages` (the Text Extractor collaborator: pypdf + nltk;
its output is taken as an input here). -/
structure SentenceUnit where
  text : String
  page_number : Nat
deriving DecidableEq

/-- The `metadata` dict built for every chunk (document_pipeline.py:184-193,
205-216, 288-297). -/
structure ChunkMeta where
  document_name : String
  page_numbers : List Nat
  page_start : Option Nat
  page_end : Option Nat
  chunk_index : Nat
  num_sentences : Nat
  filename : String
  file_extension : String
deriving DecidableEq

/-- A chunk dict: `text` plus `metadata`. -/
structure Chunk where
  text : String
  metadata : ChunkMeta
deriving DecidableEq

/-- Builds the chunk dict from a slice of sentences; common to the semantic
splitter, the final flush, and the fixed-size splitter (the three sites build
byte-identical structures). -/
def mkChunk (chunk_sentences : List SentenceUnit) (document_name : String)
    (filename file_extension : Option String) (chunk_index : Nat) : Chunk :=
  let page_numbers := sortedDistinct (chunk_sentences.map (·.page_number))
  { text := joinSpace (chunk_sentences.map (·.text))
    metadata := {
      document_name := document_name
      page_numbers := page_numbers
      page_start := page_numbers.min?
      page_end := page_numbers.max?
      chunk_index := chunk_index
      num_sentences := chunk_sentences.length
      filename := pyOrStr filename document_name
      file_extension := pyOrStr file_extension "" } }

/-! ### Semantic chunker (document_pipeline.py:100-232) -/

/-- The buffer-similarity computation at loop index `i`
(document_pipeline.py:153-162): mean raw cosine similarity between
`embeddings[i]` and the last `buffer_size` embeddings still inside the open
chunk, defaulting to `1.0` for an empty buffer. -/
def avgBufferSim (norm : List ℚ → ℚ) (all_embeddings : List (List ℚ))
    (buffer_size current_chunk_start i : Nat) : ℚ :=
  let buffer_start := max current_chunk_start (i - buffer_size)
  let sims := (List.range' buffer_start (i - buffer_start)).map
    (fun j => cosine_similarity norm (all_embeddings.getD j [])
      (all_embeddings.getD i []))
  if sims = [] then 1 else meanQ sims

/-- The split decision (document_pipeline.py:165-173): forced split at
`max_chunk_size`, similarity split once `min_chunk_size` is reached. -/
def shouldSplit (chunk_size min_chunk_size max_chunk_size : Nat)
    (avg_similarity similarity_threshold : ℚ) : Bool :=
  decide (max_chunk_size ≤ chunk_size)
    || (decide (min_chunk_size ≤ chunk_size)
        && decide (avg_similarity < similarity_threshold))

/-- The main loop of `create_semantic_chunks_with_pages`
(document_pipeline.py:149-196): `steps` iterations starting at index `i`
(called with `i = 1`, `steps = len - 1`, covering `range(1, len)`).
Returns the emitted chunks and the final `current_chunk_start`. -/
def semGo (norm : List ℚ → ℚ) (ss : List SentenceUnit)
    (all_embeddings : List (List ℚ)) (document_name : String)
    (filename file_extension : Option String) (similarity_threshold : ℚ)
    (min_chunk_size max_chunk_size buffer_size : Nat) :
    Nat → Nat → Nat → List Chunk → List Chunk × Nat
  | 0, _i, current_chunk_start, chunks => (chunks, current_chunk_start)
  | steps + 1, i, current_chunk_start, chunks =>
    if shouldSplit (i - current_chunk_start) min_chunk_size max_chunk_size
        (avgBufferSim norm all_embeddings buffer_size current_chunk_start i)
        similarity_threshold then
      semGo norm ss all_embeddings document_name filename file_extension
        similarity_threshold min_chunk_size max_chunk_size buffer_size
        steps (i + 1) i
        (chunks ++ [mkChunk (pySliceNat ss current_chunk_start i)
          document_name filename file_extension chunks.length])
    else
      semGo norm ss all_embeddings document_name filename file_extension
        similarity_threshold min_chunk_size max_chunk_size buffer_size
        steps (i + 1) current_chunk_start chunks

/-- The embedding-batching loop (document_pipeline.py:136-142 and 225-230):
the provider is called on batches of 100 texts and the results are
concatenated. -/
def batchedEmbeddings (getEmbeddings : List String → List (List ℚ))
    (texts : List String) : List (List ℚ) :=
  if h : texts = [] then []
  else getEmbeddings (texts.take 100) ++ batchedEmbeddings getEmbeddings (texts.drop 100)
termination_by texts.length
decreasing_by
  simp only [List.length_drop]
  have h1 : 0 < texts.length := List.length_pos.mpr h
  omega

/-- The chunk-building part of `create_semantic_chunks_with_pages`
(document_pipeline.py:146-219): the boundary loop over `range(1, len)`
followed by the flush of the remaining sentences as a final chunk. -/
def semanticChunksCore (norm : List ℚ → ℚ) (ss : List SentenceUnit)
    (all_embeddings : List (List ℚ)) (document_name : String)
    (filename file_extension : Option String) (similarity_threshold : ℚ)
    (min_chunk_size max_chunk_size buffer_size : Nat) : List Chunk :=
  let p := semGo norm ss all_embeddings document_name filename file_extension
    similarity_threshold min_chunk_size max_chunk_size buffer_size
    (ss.length - 1) 1 0 []
  if p.2 < ss.length then
    p.1 ++ [mkChunk (ss.drop p.2) document_name filename file_extension p.1.length]
  else p.1

/-- `DocumentPipeline.create_semantic_chunks_with_pages`
(document_pipeline.py:100-232). Returns the chunks and the chunk embeddings.
The numpy norm and the embedding provider are collaborator parameters. -/
def create_semantic_chunks_with_pages (norm : List ℚ → ℚ)
    (getEmbeddings : List String → List (List ℚ)) (ss : List SentenceUnit)
    (document_name : String) (filename file_extension : Option String)
    (similarity_threshold : ℚ) (min_chunk_size max_chunk_size buffer_size : Nat)
    (precomputed_embeddings : Option (List (List ℚ))) :
    List Chunk × List (List ℚ) :=
  if ss = [] then ([], [])
  else
    let all_embeddings := match precomputed_embeddings with
      | none => batchedEmbeddings getEmbeddings (ss.map (·.text))
      | some es => es
    let chunks := semanticChunksCore norm ss all_embeddings document_name
      filename file_extension similarity_threshold
      min_chunk_size max_chunk_size buffer_size
    (chunks, batchedEmbeddings getEmbeddings (chunks.map (·.text)))

/-! ### Fixed-size chunker (document_pipeline.py:269-305)

The Python `while i < len(sentences_with_pages)` loop advances `i` by
`split_length - split_overlap`, which can be zero or negative, so the loop
need not terminate; it is modelled with explicit fuel (`none` = the given
fuel is exhausted before the loop exits). `i` is a Python int and the slice
`sentences_with_pages[i:i + split_length]` follows Python's negative-index
semantics (`pySlice`). -/

def fixedGo (ss : List SentenceUnit) (document_name : String)
    (filename file_extension : Option String) (split_length split_overlap : Int) :
    Nat → Int → Nat → List Chunk → Option (List Chunk)
  | 0, _, _, _ => none
  | fuel + 1, i, chunk_index, chunks =>
    if i < (ss.length : Int) then
      if pySlice ss i (i + split_length) = [] then some chunks
      else
        fixedGo ss document_name filename file_extension split_length split_overlap
          fuel (i + (split_length - split_overlap)) (chunk_index + 1)
          (chunks ++ [mkChunk (pySlice ss i (i + split_length))
            document_name filename file_extension chunk_index])
    else some chunks

/-- `DocumentPipeline.create_chunks_with_pages` (document_pipeline.py:234-305):
dispatches to the semantic chunker (with its default
`min_chunk_size=3, max_chunk_size=50, buffer_size=5`) or to the fixed-size
loop. The second component of the result is the precomputed chunk embeddings
(`None` for fixed-size). -/
def create_chunks_with_pages (norm : List ℚ → ℚ)
    (getEmbeddings : List String → List (List ℚ)) (fuel : Nat)
    (ss : List SentenceUnit) (document_name : String)
    (filename file_extension : Option String) (split_length split_overlap : Int)
    (use_semantic : Bool) (similarity_threshold : ℚ) :
    Option (List Chunk × Option (List (List ℚ))) :=
  if use_semantic then
    let p := create_semantic_chunks_with_pages norm getEmbeddings ss document_name
      filename file_extension similarity_threshold 3 50 5 none
    some (p.1, some p.2)
  else
    (fixedGo ss document_name filename file_extension split_length split_overlap
      fuel 0 0 []).map (fun cs => (cs, none))

/-! ### Per-file processing (document_pipeline.py:307-464)

File I/O, pypdf extraction and nltk tokenisation are the Text Extractor
collaborator; its output (the sentence units) is a parameter, as is the
extension computed by `os.path.splitext(filepath.lower())`. The Pinecone
upsert is a write to an external store; the record count it receives is the
observable kept here (`vectors_uploaded`). The metadata-cleaning loop
(document_pipeline.py:399-439) only reshapes the upserted payload and is not
modelled. -/

/-- Python `s.rfind(c)`: index of the last occurrence, `-1` if absent. -/
def rfindChar (l : List Char) (c : Char) : Int :=
  match l with
  | [] => -1
  | a :: t =>
    let r := rfindChar t c
    if 0 ≤ r then r + 1 else if a = c then 0 else -1

/-- The stem of `os.path.splitext(filename)`: everything before the last
dot, except that a dot at position 0 does not split (the filenames processed
here contain no directory separators). -/
def splitextStem (s : String) : String :=
  let cs := s.toList
  let k := rfindChar cs '.'
  if k ≤ 0 then s else String.mk (cs.take k.toNat)

/-- Python `s.lstrip('.')`. -/
def stripDots (s : String) : String :=
  String.mk (s.toList.dropWhile (· = '.'))

/-- The per-file result dict of `process_single_file`: `success` and
`filename` always present, the other keys present (`some`) or absent
(`none`) depending on the branch taken. -/
structure FileResult where
  success : Bool
  filename : String
  document_name : Option String
  chunks_count : Option Nat
  vectors_uploaded : Option Nat
  error : Option String
deriving DecidableEq

/-- `DocumentPipeline.process_single_file` (document_pipeline.py:307-464),
PDF branch, with the extracted `sentences_with_pages` as the extraction
parameter. `none` means the fixed-size chunking loop did not exit within
`fuel` iterations (the Python code would still be looping). -/
def process_single_file (norm : List ℚ → ℚ)
    (getEmbeddings : List String → List (List ℚ)) (fuel : Nat)
    (filename ext : String) (ss : List SentenceUnit)
    (split_length split_overlap : Int) (use_semantic_chunking : Bool)
    (similarity_threshold : ℚ) : Option FileResult :=
  let document_name :=
    ((splitextStem filename).replace " (geanonimiseerd)" "").replace "(geanonimiseerd)" ""
  let file_extension := if ext = "" then none else some (stripDots ext)
  if ss = [] then
    some { success := false, filename := filename, document_name := none,
           chunks_count := none, vectors_uploaded := none,
           error := some "No text extracted from PDF" }
  else
    match create_chunks_with_pages norm getEmbeddings fuel ss document_name
      (some filename) file_extension split_length split_overlap
      use_semantic_chunking similarity_threshold with
    | none => none
    | some (chunks, precomputed_chunk_embeddings) =>
      if chunks = [] then
        some { success := false, filename := filename, document_name := none,
               chunks_count := none, vectors_uploaded := none,
               error := some "No chunks created" }
      else
        let embeddings := match precomputed_chunk_embeddings with
          | some e => e
          | none => getEmbeddings (chunks.map (·.text))
        let vectors := (List.zip chunks embeddings).map (·.2)
        some { success := true, filename := filename,
               document_name := some document_name,
               chunks_count := some chunks.length,
               vectors_uploaded := some vectors.length,
               error := none }

/-! ### Helper lemmas about slices, sorted page sets and chunk construction -/

theorem pySliceNat_length_le {α : Type} (l : List α) (a b : Nat) :
    (pySliceNat l a b).length ≤ b - a := by
  simp [pySliceNat]

theorem pySliceNat_ne_nil {α : Type} (l : List α) (a b : Nat)
    (h1 : a < b) (h2 : a < l.length) : pySliceNat l a b ≠ [] := by
  have hlen : 0 < (pySliceNat l a b).length := by
    simp [pySliceNat]
    omega
  exact List.length_pos.mp hlen

theorem pySliceNat_parts {α : Type} (l : List α) (a b : Nat) :
    ∃ pre post, pre ++ pySliceNat l a b ++ post = l := by
  refine ⟨l.take a, (l.drop a).drop (b - a), ?_⟩
  rw [List.append_assoc, pySliceNat, List.take_append_drop, List.take_append_drop]

theorem pySlice_parts {α : Type} (l : List α) (a b : Int) :
    ∃ pre post, pre ++ pySlice l a b ++ post = l := by
  refine ⟨l.take (pyIndex l.length a),
    (l.drop (pyIndex l.length a)).drop (pyIndex l.length b - pyIndex l.length a), ?_⟩
  rw [List.append_assoc, pySlice, List.take_append_drop, List.take_append_drop]

theorem sortedDistinct_sorted (l : List Nat) :
    List.Sorted (· ≤ ·) (sortedDistinct l) := by
  have h := @List.sorted_mergeSort Nat (fun a b : Nat => decide (a ≤ b))
    (fun a b c hab hbc => by
      simp only [decide_eq_true_eq] at *
      omega)
    (fun a b => by
      simp only [Bool.or_eq_true, decide_eq_true_eq]
      omega)
    l.dedup
  exact List.Pairwise.imp (fun hab => by simpa using hab) h

theorem sortedDistinct_nodup (l : List Nat) : (sortedDistinct l).Nodup := by
  have hperm : List.Perm (sortedDistinct l) l.dedup := List.mergeSort_perm l.dedup _
  exact hperm.symm.nodup l.nodup_dedup

theorem mem_sortedDistinct (l : List Nat) (p : Nat) :
    p ∈ sortedDistinct l ↔ p ∈ l := by
  simp [sortedDistinct]

theorem mkChunk_num_sentences (cs : List SentenceUnit) (dn : String)
    (fn fe : Option String) (idx : Nat) :
    (mkChunk cs dn fn fe idx).metadata.num_sentences = cs.length := rfl

theorem mkChunk_pages (cs : List SentenceUnit) (dn : String)
    (fn fe : Option String) (idx : Nat) :
    (mkChunk cs dn fn fe idx).metadata.page_numbers
      = sortedDistinct (cs.map (·.page_number)) := rfl

/-- Every chunk the two chunkers emit is `mkChunk` of a nonempty contiguous
slice of the input sentence list. -/
def ChunkFrom (ss : List SentenceUnit) (dn : String) (fn fe : Option String)
    (c : Chunk) : Prop :=
  ∃ cs idx, cs ≠ [] ∧ (∃ pre post, pre ++ cs ++ post = ss)
    ∧ c = mkChunk cs dn fn fe idx

theorem chunkFrom_of_slice (ss : List SentenceUnit) (dn : String)
    (fn fe : Option String) (idx a b : Nat) (h1 : a < b) (h2 : a < ss.length) :
    ChunkFrom ss dn fn fe (mkChunk (pySliceNat ss a b) dn fn fe idx) :=
  ⟨pySliceNat ss a b, idx, pySliceNat_ne_nil ss a b h1 h2,
    pySliceNat_parts ss a b, rfl⟩

/-! ### Invariants of the semantic-chunker loop -/

theorem semGo_size (norm : List ℚ → ℚ) (ss : List SentenceUnit)
    (es : List (List ℚ)) (dn : String) (fn fe : Option String) (θ : ℚ)
    (minC maxC buf : Nat) (hmax : 1 ≤ maxC) :
    ∀ steps i start chunks, start ≤ i → i - start ≤ maxC →
    (∀ c ∈ chunks, c.metadata.num_sentences ≤ maxC) →
    (∀ c ∈ (semGo norm ss es dn fn fe θ minC maxC buf steps i start chunks).1,
        c.metadata.num_sentences ≤ maxC)
      ∧ (i + steps) - (semGo norm ss es dn fn fe θ minC maxC buf steps i start chunks).2 ≤ maxC
      ∧ (semGo norm ss es dn fn fe θ minC maxC buf steps i start chunks).2 ≤ i + steps := by
  intro steps
  induction steps with
  | zero =>
    intro i start chunks hsi hle hall
    simp only [semGo]
    exact ⟨hall, by omega, by omega⟩
  | succ n ih =>
    intro i start chunks hsi hle hall
    simp only [semGo]
    by_cases hs : shouldSplit (i - start) minC maxC
        (avgBufferSim norm es buf start i) θ = true
    · rw [if_pos hs]
      have hnew : ∀ c ∈ chunks ++ [mkChunk (pySliceNat ss start i) dn fn fe chunks.length],
          c.metadata.num_sentences ≤ maxC := by
        intro c hc
        rcases List.mem_append.mp hc with h | h
        · exact hall c h
        · have : c = mkChunk (pySliceNat ss start i) dn fn fe chunks.length := by
            simpa using h
          rw [this, mkChunk_num_sentences]
          have := pySliceNat_length_le ss start i
          omega
      have := ih (i + 1) i _ (by omega) (by omega) hnew
      refine ⟨this.1, ?_, ?_⟩ <;> [skip; skip] <;>
        · have h2 := this.2.1
          have h3 := this.2.2
          omega
    · rw [if_neg hs]
      have hlt : i - start < maxC := by
        simp only [shouldSplit, Bool.or_eq_true, Bool.and_eq_true,
          decide_eq_true_eq] at hs
        omega
      have := ih (i + 1) start chunks (by omega) (by omega) hall
      refine ⟨this.1, ?_, ?_⟩ <;>
        · have h2 := this.2.1
          have h3 := this.2.2
          omega

theorem semGo_shape (norm : List ℚ → ℚ) (ss : List SentenceUnit)
    (es : List (List ℚ)) (dn : String) (fn fe : Option String) (θ : ℚ)
    (minC maxC buf : Nat) :
    ∀ steps i start chunks, start < i → i + steps ≤ ss.length →
    (∀ c ∈ chunks, ChunkFrom ss dn fn fe c) →
    (∀ c ∈ (semGo norm ss es dn fn fe θ minC maxC buf steps i start chunks).1,
        ChunkFrom ss dn fn fe c)
      ∧ (semGo norm ss es dn fn fe θ minC maxC buf steps i start chunks).2 < i + steps := by
  intro steps
  induction steps with
  | zero =>
    intro i start chunks hsi _hn hall
    simp only [semGo]
    exact ⟨hall, by omega⟩
  | succ n ih =>
    intro i start chunks hsi hn hall
    simp only [semGo]
    by_cases hs : shouldSplit (i - start) minC maxC
        (avgBufferSim norm es buf start i) θ = true
    · rw [if_pos hs]
      have hnew : ∀ c ∈ chunks ++ [mkChunk (pySliceNat ss start i) dn fn fe chunks.length],
          ChunkFrom ss dn fn fe c := by
        intro c hc
        rcases List.mem_append.mp hc with h | h
        · exact hall c h
        · have hceq : c = mkChunk (pySliceNat ss start i) dn fn fe chunks.length := by
            simpa using h
          rw [hceq]
          exact chunkFrom_of_slice ss dn fn fe chunks.length start i hsi (by omega)
      have := ih (i + 1) i _ (by omega) (by omega) hnew
      exact ⟨this.1, by have := this.2; omega⟩
    · rw [if_neg hs]
      have := ih (i + 1) start chunks (by omega) (by omega) hall
      exact ⟨this.1, by have := this.2; omega⟩

theorem semanticChunksCore_size (norm : List ℚ → ℚ) (ss : List SentenceUnit)
    (es : List (List ℚ)) (dn : String) (fn fe : Option String) (θ : ℚ)
    (minC maxC buf : Nat) (hmax : 1 ≤ maxC) (hss : ss ≠ []) :
    ∀ c ∈ semanticChunksCore norm ss es dn fn fe θ minC maxC buf,
      c.metadata.num_sentences ≤ maxC := by
  have hn : 1 ≤ ss.length := List.length_pos.mpr hss
  have hloop := semGo_size norm ss es dn fn fe θ minC maxC buf hmax
    (ss.length - 1) 1 0 [] (by omega) (by omega) (by intro c hc; simp at hc)
  intro c hc
  simp only [semanticChunksCore] at hc
  split at hc
  · rcases List.mem_append.mp hc with h | h
    · exact hloop.1 c h
    · have hceq : c = mkChunk
          (ss.drop (semGo norm ss es dn fn fe θ minC maxC buf (ss.length - 1) 1 0 []).2)
          dn fn fe (semGo norm ss es dn fn fe θ minC maxC buf (ss.length - 1) 1 0 []).1.length := by
        simpa using h
      rw [hceq, mkChunk_num_sentences, List.length_drop]
      have h2 := hloop.2.1
      omega
  · exact hloop.1 c hc

theorem semanticChunksCore_shape (norm : List ℚ → ℚ) (ss : List SentenceUnit)
    (es : List (List ℚ)) (dn : String) (fn fe : Option String) (θ : ℚ)
    (minC maxC buf : Nat) (hss : ss ≠ []) :
    ∀ c ∈ semanticChunksCore norm ss es dn fn fe θ minC maxC buf,
      ChunkFrom ss dn fn fe c := by
  have hn : 1 ≤ ss.length := List.length_pos.mpr hss
  have hloop := semGo_shape norm ss es dn fn fe θ minC maxC buf
    (ss.length - 1) 1 0 [] (by omega) (by omega) (by intro c hc; simp at hc)
  intro c hc
  simp only [semanticChunksCore] at hc
  split at hc
  · rcases List.mem_append.mp hc with h | h
    · exact hloop.1 c h
    · have hceq : c = mkChunk
          (ss.drop (semGo norm ss es dn fn fe θ minC maxC buf (ss.length - 1) 1 0 []).2)
          dn fn fe (semGo norm ss es dn fn fe θ minC maxC buf (ss.length - 1) 1 0 []).1.length := by
        simpa using h
      have hlt : (semGo norm ss es dn fn fe θ minC maxC buf (ss.length - 1) 1 0 []).2
          < ss.length := by
        have := hloop.2
        omega
      refine ⟨_, _, ?_, ?_, hceq⟩
      · intro hnil
        have : (ss.drop (semGo norm ss es dn fn fe θ minC maxC buf (ss.length - 1) 1 0 []).2).length = 0 := by
          rw [hnil]; rfl
        rw [List.length_drop] at this
        omega
      · exact ⟨ss.take (semGo norm ss es dn fn fe θ minC maxC buf (ss.length - 1) 1 0 []).2,
          [], by simp⟩
  · exact hloop.1 c hc

theorem fixedGo_shape (ss : List SentenceUnit) (dn : String)
    (fn fe : Option String) (L O : Int) :
    ∀ fuel (i : Int) idx chunks out,
    (∀ c ∈ chunks, ChunkFrom ss dn fn fe c) →
    fixedGo ss dn fn fe L O fuel i idx chunks = some out →
    ∀ c ∈ out, ChunkFrom ss dn fn fe c := by
  intro fuel
  induction fuel with
  | zero =>
    intro i idx chunks out _ h
    simp [fixedGo] at h
  | succ n ih =>
    intro i idx chunks out hall h
    simp only [fixedGo] at h
    by_cases hi : i < (ss.length : Int)
    · rw [if_pos hi] at h
      by_cases hnil : pySlice ss i (i + L) = []
      · rw [if_pos hnil] at h
        have : chunks = out := by simpa using h
        rw [← this]; exact hall
      · rw [if_neg hnil] at h
        refine ih _ _ _ out ?_ h
        intro c hc
        rcases List.mem_append.mp hc with hcm | hcm
        · exact hall c hcm
        · have hceq : c = mkChunk (pySlice ss i (i + L)) dn fn fe idx := by
            simpa using hcm
          exact ⟨pySlice ss i (i + L), idx, hnil, pySlice_parts ss i (i + L), hceq⟩
    · rw [if_neg hi] at h
      have : chunks = out := by simpa using h
      rw [← this]; exact hall

/-- The page-number invariant of a chunk: `page_numbers` is ascending with
no duplicates, and every entry is the page number of one of the chunk's
constituent sentences (a contiguous nonempty slice of the document),
hence also one of the document's page numbers. -/
def PageNumbersOk (ss : List SentenceUnit) (c : Chunk) : Prop :=
  List.Sorted (· ≤ ·) c.metadata.page_numbers
    ∧ c.metadata.page_numbers.Nodup
    ∧ ∃ cs, cs ≠ [] ∧ (∃ pre post, pre ++ cs ++ post = ss)
        ∧ c.metadata.num_sentences = cs.length
        ∧ (∀ p ∈ c.metadata.page_numbers, p ∈ cs.map (·.page_number))
        ∧ (∀ p ∈ c.metadata.page_numbers, p ∈ ss.map (·.page_number))

theorem chunkFrom_pageNumbersOk (ss : List SentenceUnit) (dn : String)
    (fn fe : Option String) (c : Chunk) (h : ChunkFrom ss dn fn fe c) :
    PageNumbersOk ss c := by
  obtain ⟨cs, idx, hnil, ⟨pre, post, hparts⟩, hceq⟩ := h
  have hpages : c.metadata.page_numbers = sortedDistinct (cs.map (·.page_number)) := by
    rw [hceq, mkChunk_pages]
  refine ⟨?_, ?_, cs, hnil, ⟨pre, post, hparts⟩, ?_, ?_, ?_⟩
  · rw [hpages]; exact sortedDistinct_sorted _
  · rw [hpages]; exact sortedDistinct_nodup _
  · rw [hceq, mkChunk_num_sentences]
  · intro p hp
    rw [hpages] at hp
    exact (mem_sortedDistinct _ p).mp hp
  · intro p hp
    rw [hpages] at hp
    have hcs : p ∈ cs.map (·.page_number) := (mem_sortedDistinct _ p).mp hp
    rw [← hparts]
    simp only [List.map_append, List.mem_append]
    exact Or.inl (Or.inr hcs)

/-! ### Test fixtures for witnesses -/

def exNorm : List ℚ → ℚ := fun v => dotQ v v

def exGetEmb : List String → List (List ℚ) := fun ts => ts.map (fun _ => ([] : List ℚ))

def exSent1 : SentenceUnit := ⟨"Zin een.", 1⟩

def exSent2 : SentenceUnit := ⟨"Zin twee.", 2⟩

def exE1 : List ℚ := [1, 0]

def exE2 : List ℚ := [0, 1]

/-! ### Claim C3 -/

/-- Claim C3: for every sentence list, every corresponding embedding list and
every configuration with `max_chunk_size = M ≥ 1`, every chunk emitted by the
semantic chunker (including the final flushed chunk) contains at most `M`
sentences. -/
theorem claim_C3 (norm : List ℚ → ℚ) (getEmb : List String → List (List ℚ))
    (ss : List SentenceUnit) (dn : String) (fn fe : Option String) (θ : ℚ)
    (minC maxC buf : Nat) (pre : Option (List (List ℚ))) (hmax : 1 ≤ maxC) :
    ∀ c ∈ (create_semantic_chunks_with_pages norm getEmb ss dn fn fe θ
        minC maxC buf pre).1,
      c.metadata.num_sentences ≤ maxC := by
  by_cases hss : ss = []
  · subst hss
    simp [create_semantic_chunks_with_pages]
  · intro c hc
    cases pre with
    | none =>
      simp only [create_semantic_chunks_with_pages, if_neg hss] at hc
      exact semanticChunksCore_size norm ss _ dn fn fe θ minC maxC buf hmax hss c hc
    | some es =>
      simp only [create_semantic_chunks_with_pages, if_neg hss] at hc
      exact semanticChunksCore_size norm ss es dn fn fe θ minC maxC buf hmax hss c hc

/-- Witness for C3 at a concrete two-sentence document. -/
theorem claim_C3_witness :
    1 ≤ 50
      ∧ ∀ c ∈ (create_semantic_chunks_with_pages exNorm exGetEmb [exSent1, exSent2]
          "doc" none none (76/100) 3 50 5 (some [exE1, exE2])).1,
        c.metadata.num_sentences ≤ 50 :=
  ⟨by decide,
    claim_C3 exNorm exGetEmb [exSent1, exSent2] "doc" none none (76/100) 3 50 5
      (some [exE1, exE2]) (by decide)⟩

/-! ### Claim C7 -/

/-- Claim C7: every chunk emitted by either chunking mode has `page_numbers`
ascending, duplicate-free, and drawn from the page numbers of the chunk's own
constituent sentences (hence of the document). Stated over
`create_chunks_with_pages`, which dispatches to the semantic chunker
(`use_semantic = true`) or the fixed-size window (`use_semantic = false`). -/
theorem claim_C7 (norm : List ℚ → ℚ) (getEmb : List String → List (List ℚ))
    (fuel : Nat) (ss : List SentenceUnit) (dn : String) (fn fe : Option String)
    (L O : Int) (us : Bool) (θ : ℚ) (out : List Chunk)
    (embOpt : Option (List (List ℚ)))
    (h : create_chunks_with_pages norm getEmb fuel ss dn fn fe L O us θ
        = some (out, embOpt)) :
    ∀ c ∈ out, PageNumbersOk ss c := by
  cases us with
  | true =>
    simp only [create_chunks_with_pages, if_pos] at h
    have hout : out = (create_semantic_chunks_with_pages norm getEmb ss dn fn fe θ
        3 50 5 none).1 := by
      have := congrArg Prod.fst (Option.some.inj h)
      exact this.symm
    by_cases hss : ss = []
    · subst hss
      intro c hc
      rw [hout] at hc
      simp [create_semantic_chunks_with_pages] at hc
    · intro c hc
      rw [hout] at hc
      simp only [create_semantic_chunks_with_pages, if_neg hss] at hc
      exact chunkFrom_pageNumbersOk ss dn fn fe c
        (semanticChunksCore_shape norm ss _ dn fn fe θ 3 50 5 hss c hc)
  | false =>
    simp only [create_chunks_with_pages, Bool.false_eq_true, if_false,
      Option.map_eq_some'] at h
    obtain ⟨cs, hfix, hpair⟩ := h
    have hout : out = cs := by
      have := congrArg Prod.fst hpair
      exact this.symm
    rw [hout]
    intro c hc
    exact chunkFrom_pageNumbersOk ss dn fn fe c
      (fixedGo_shape ss dn fn fe L O fuel 0 0 [] cs
        (by intro c' hc'; simp at hc') hfix c hc)

/-- Witness for C7: the fixed-size mode on a concrete two-sentence document,
one window covering both sentences. -/
theorem claim_C7_witness :
    create_chunks_with_pages exNorm exGetEmb 3 [exSent1, exSent2] "doc" none none
        10 2 false (76/100)
      = some ([mkChunk [exSent1, exSent2] "doc" none none 0], none)
      ∧ ∀ c ∈ [mkChunk [exSent1, exSent2] "doc" none none 0],
          PageNumbersOk [exSent1, exSent2] c := by
  have h : create_chunks_with_pages exNorm exGetEmb 3 [exSent1, exSent2] "doc"
      none none 10 2 false (76/100)
      = some ([mkChunk [exSent1, exSent2] "doc" none none 0], none) := by
    simp [create_chunks_with_pages, fixedGo, pySlice, pyIndex]
  exact ⟨h, claim_C7 exNorm exGetEmb 3 [exSent1, exSent2] "doc" none none
    10 2 false (76/100) [mkChunk [exSent1, exSent2] "doc" none none 0] none h⟩

/-! ### Claim C10: termination of the fixed-size chunking loop -/

theorem pySlice_nonempty_bound (ss : List SentenceUnit) (i L : Int)
    (h : pySlice ss i (i + L) ≠ []) :
    1 ≤ (ss.length : Int) + i + L := by
  have hlen : 0 < (pySlice ss i (i + L)).length := List.length_pos.mpr h
  simp only [pySlice, pyIndex, List.length_take, List.length_drop] at hlen
  split_ifs at hlen <;> omega

theorem fixedGo_terminates_gt (ss : List SentenceUnit) (dn : String)
    (fn fe : Option String) (L O : Int) (hgt : O < L) :
    ∀ m (i : Int) idx chunks, ((ss.length : Int) - i).toNat = m →
    ∃ fuel out, fixedGo ss dn fn fe L O fuel i idx chunks = some out := by
  intro m
  induction m using Nat.strong_induction_on with
  | _ m ih =>
    intro i idx chunks hm
    by_cases hi : i < (ss.length : Int)
    · by_cases hnil : pySlice ss i (i + L) = []
      · exact ⟨1, chunks, by simp [fixedGo, if_pos hi, hnil]⟩
      · obtain ⟨fuel, out, hout⟩ := ih (((ss.length : Int) - (i + (L - O))).toNat)
          (by omega) (i + (L - O)) (idx + 1)
          (chunks ++ [mkChunk (pySlice ss i (i + L)) dn fn fe idx]) rfl
        exact ⟨fuel + 1, out, by simp only [fixedGo, if_pos hi, if_neg hnil]; exact hout⟩
    · exact ⟨1, chunks, by simp [fixedGo, if_neg hi]⟩

theorem fixedGo_terminates_lt (ss : List SentenceUnit) (dn : String)
    (fn fe : Option String) (L O : Int) (hlt : L < O) :
    ∀ m (i : Int) idx chunks, (i + (ss.length : Int) + L).toNat = m →
    ∃ fuel out, fixedGo ss dn fn fe L O fuel i idx chunks = some out := by
  intro m
  induction m using Nat.strong_induction_on with
  | _ m ih =>
    intro i idx chunks hm
    by_cases hi : i < (ss.length : Int)
    · by_cases hnil : pySlice ss i (i + L) = []
      · exact ⟨1, chunks, by simp [fixedGo, if_pos hi, hnil]⟩
      · have hbound := pySlice_nonempty_bound ss i L hnil
        obtain ⟨fuel, out, hout⟩ := ih ((i + (L - O) + (ss.length : Int) + L).toNat)
          (by omega) (i + (L - O)) (idx + 1)
          (chunks ++ [mkChunk (pySlice ss i (i + L)) dn fn fe idx]) rfl
        exact ⟨fuel + 1, out, by simp only [fixedGo, if_pos hi, if_neg hnil]; exact hout⟩
    · exact ⟨1, chunks, by simp [fixedGo, if_neg hi]⟩

theorem fixedGo_stuck (ss : List SentenceUnit) (dn : String)
    (fn fe : Option String) (L : Int) (hnil : pySlice ss 0 L ≠ []) :
    ∀ fuel idx chunks, fixedGo ss dn fn fe L L fuel 0 idx chunks = none := by
  have hpos : (0 : Int) < (ss.length : Int) := by
    have h1 : 0 < (pySlice ss 0 L).length := List.length_pos.mpr hnil
    simp only [pySlice, pyIndex, List.length_take, List.length_drop] at h1
    split_ifs at h1 <;> omega
  intro fuel
  induction fuel with
  | zero => intro idx chunks; rfl
  | succ n ih =>
    intro idx chunks
    have h0 : (0 : Int) + L = L := by omega
    simp only [fixedGo, if_pos hpos, h0, if_neg hnil]
    have harg : (0 : Int) + (L - L) = 0 := by omega
    rw [harg]
    exact ih (idx + 1) (chunks ++ [mkChunk (pySlice ss 0 L) dn fn fe idx])

/-- Counterexample to claim C10 as stated: with `split_length = 1` and
`split_overlap = 2` (so `split_length ≤ split_overlap`) on a one-sentence
list, the loop terminates after two iterations — the index moves to `-1`,
and the Python slice `ss[-1:0]` is empty, triggering the `break` — although
the claim asserts non-termination whenever `split_length ≤ split_overlap`. -/
theorem claim_C10_counterexample :
    (∃ out, fixedGo [exSent1] "doc" none none 1 2 3 0 0 [] = some out)
      ∧ ¬((1 : Int) > 2) := by
  constructor
  · refine ⟨[mkChunk [exSent1] "doc" none none 0], ?_⟩
    simp [fixedGo, pySlice, pyIndex, exSent1]
  · omega

/-- Claim C10, amended: the fixed-size chunking loop terminates if and only
if it is not the case that `split_length = split_overlap` with a non-empty
first window `ss[0:split_length]`. In particular it terminates whenever
`split_length > split_overlap`; when `split_length = split_overlap` and the
first window is non-empty the index never advances and the loop runs
forever; and when `split_length < split_overlap` the index decreases until
the Python slice becomes empty and the loop exits via `break`. -/
theorem claim_C10_amended (ss : List SentenceUnit) (dn : String)
    (fn fe : Option String) (L O : Int) :
    (∃ fuel out, fixedGo ss dn fn fe L O fuel 0 0 [] = some out)
      ↔ ¬(L = O ∧ pySlice ss 0 L ≠ []) := by
  constructor
  · rintro ⟨fuel, out, hout⟩ ⟨hLO, hnil⟩
    subst hLO
    rw [fixedGo_stuck ss dn fn fe L hnil fuel 0 []] at hout
    exact Option.noConfusion hout
  · intro h
    by_cases hLO : L = O
    · subst hLO
      have hnil : pySlice ss 0 L = [] := by
        by_contra hne
        exact h ⟨rfl, hne⟩
      exact ⟨1, [], by simp [fixedGo, hnil]⟩
    · rcases lt_or_gt_of_ne hLO with hlt | hgt
      · exact fixedGo_terminates_lt ss dn fn fe L O hlt _ 0 0 [] rfl
      · exact fixedGo_terminates_gt ss dn fn fe L O hgt _ 0 0 [] rfl

/-! ### Claim C6: at least one chunk iff at least one sentence -/

theorem semanticChunksCore_ne_nil (norm : List ℚ → ℚ) (ss : List SentenceUnit)
    (es : List (List ℚ)) (dn : String) (fn fe : Option String) (θ : ℚ)
    (minC maxC buf : Nat) (hss : ss ≠ []) :
    semanticChunksCore norm ss es dn fn fe θ minC maxC buf ≠ [] := by
  have hn : 1 ≤ ss.length := List.length_pos.mpr hss
  have hloop := semGo_shape norm ss es dn fn fe θ minC maxC buf
    (ss.length - 1) 1 0 [] (by omega) (by omega) (by intro c hc; simp at hc)
  have hlt : (semGo norm ss es dn fn fe θ minC maxC buf (ss.length - 1) 1 0 []).2
      < ss.length := by
    have := hloop.2
    omega
  simp only [semanticChunksCore, if_pos hlt]
  simp

/-- Claim C6: with semantic chunking (the pipeline's default mode), a file
whose extraction yields at least one sentence produces at least one chunk and
a success result, while zero extracted sentences produce the structured
per-file failure with the no-text-extracted error — no exception, no success,
no chunks. -/
theorem claim_C6 (norm : List ℚ → ℚ) (getEmb : List String → List (List ℚ))
    (fuel : Nat) (filename ext : String) (ss : List SentenceUnit)
    (L O : Int) (θ : ℚ) :
    (ss = [] → ∀ us : Bool,
      process_single_file norm getEmb fuel filename ext ss L O us θ
        = some { success := false, filename := filename, document_name := none,
                 chunks_count := none, vectors_uploaded := none,
                 error := some "No text extracted from PDF" })
    ∧ (ss ≠ [] →
      ∃ r, process_single_file norm getEmb fuel filename ext ss L O true θ = some r
        ∧ r.success = true ∧ ∃ k, r.chunks_count = some k ∧ 1 ≤ k) := by
  constructor
  · intro hss us
    subst hss
    simp [process_single_file]
  · intro hss
    have hcore := semanticChunksCore_ne_nil norm ss
      (batchedEmbeddings getEmb (ss.map (·.text)))
      (((splitextStem filename).replace " (geanonimiseerd)" "").replace
        "(geanonimiseerd)" "") (some filename)
      (if ext = "" then none else some (stripDots ext)) θ 3 50 5 hss
    have heq : process_single_file norm getEmb fuel filename ext ss L O true θ
        = some { success := true, filename := filename,
                 document_name := some (((splitextStem filename).replace
                   " (geanonimiseerd)" "").replace "(geanonimiseerd)" ""),
                 chunks_count := some (semanticChunksCore norm ss
                   (batchedEmbeddings getEmb (ss.map (·.text)))
                   (((splitextStem filename).replace " (geanonimiseerd)" "").replace
                     "(geanonimiseerd)" "") (some filename)
                   (if ext = "" then none else some (stripDots ext)) θ 3 50 5).length,
                 vectors_uploaded := some ((List.zip (semanticChunksCore norm ss
                   (batchedEmbeddings getEmb (ss.map (·.text)))
                   (((splitextStem filename).replace " (geanonimiseerd)" "").replace
                     "(geanonimiseerd)" "") (some filename)
                   (if ext = "" then none else some (stripDots ext)) θ 3 50 5)
                   (batchedEmbeddings getEmb ((semanticChunksCore norm ss
                     (batchedEmbeddings getEmb (ss.map (·.text)))
                     (((splitextStem filename).replace " (geanonimiseerd)" "").replace
                       "(geanonimiseerd)" "") (some filename)
                     (if ext = "" then none else some (stripDots ext)) θ 3 50 5).map
                     (·.text)))).map (·.2)).length,
                 error := none } := by
      simp only [process_single_file, if_neg hss, create_chunks_with_pages,
        create_semantic_chunks_with_pages, if_pos, if_true, if_neg hss]
      rw [if_neg hcore]
    exact ⟨_, heq, rfl, _, rfl, List.length_pos.mpr hcore⟩

/-- Witness for C6: a one-sentence document succeeds with one chunk, an
empty extraction fails with the no-text error. -/
theorem claim_C6_witness :
    (∃ r, process_single_file exNorm exGetEmb 1 "a.pdf" ".pdf" [exSent1]
          10 2 true (76/100) = some r
        ∧ r.success = true ∧ ∃ k, r.chunks_count = some k ∧ 1 ≤ k)
      ∧ process_single_file exNorm exGetEmb 1 "a.pdf" ".pdf" [] 10 2 true (76/100)
        = some { success := false, filename := "a.pdf", document_name := none,
                 chunks_count := none, vectors_uploaded := none,
                 error := some "No text extracted from PDF" } :=
  ⟨(claim_C6 exNorm exGetEmb 1 "a.pdf" ".pdf" [exSent1] 10 2 (76/100)).2
      (by simp),
    (claim_C6 exNorm exGetEmb 1 "a.pdf" ".pdf" [] 10 2 (76/100)).1 rfl true⟩

/-! ### Claim C8: raw vs renormalised cosine similarity -/

theorem cosine_similarity_mem (norm : List ℚ → ℚ) (v1 v2 : List ℚ)
    (he1 : IsEuclidOn norm v1) (he2 : IsEuclidOn norm v2) :
    -1 ≤ cosine_similarity norm v1 v2 ∧ cosine_similarity norm v1 v2 ≤ 1 := by
  simp only [cosine_similarity]
  split
  · norm_num
  · rename_i hnz
    push_neg at hnz
    have hp1 : 0 < norm v1 := lt_of_le_of_ne he1.1 (Ne.symm hnz.1)
    have hp2 : 0 < norm v2 := lt_of_le_of_ne he2.1 (Ne.symm hnz.2)
    have hpos : 0 < norm v1 * norm v2 := mul_pos hp1 hp2
    have hcs : dotQ v1 v2 ^ 2 ≤ (norm v1 * norm v2) ^ 2 := by
      have h := dotQ_sq_le v1 v2
      calc dotQ v1 v2 ^ 2 ≤ dotQ v1 v1 * dotQ v2 v2 := h
        _ = norm v1 ^ 2 * norm v2 ^ 2 := by rw [he1.2, he2.2]
        _ = (norm v1 * norm v2) ^ 2 := by ring
    constructor
    · rw [le_div_iff hpos]
      nlinarith [sq_nonneg (dotQ v1 v2 + norm v1 * norm v2)]
    · rw [div_le_one hpos]
      nlinarith [sq_nonneg (dotQ v1 v2 - norm v1 * norm v2)]

/-- Claim C8: the chunk-boundary similarity is the raw cosine in [-1,1],
compared as-is against the threshold, while the citation score is the same
cosine renormalised to [0,1] via `(cos+1)/2` (and clamped). The last two
conjuncts exhibit the asymmetry at one concrete input: with orthogonal
embeddings and threshold 1/2, the raw value 0 is below the threshold — so the
semantic chunker splits a two-sentence document into two chunks — while the
renormalised value is exactly 1/2 and is not below it. -/
theorem claim_C8 (norm : List ℚ → ℚ) (v1 v2 : List ℚ)
    (h1 : norm v1 ≠ 0) (h2 : norm v2 ≠ 0)
    (he1 : IsEuclidOn norm v1) (he2 : IsEuclidOn norm v2) :
    calculate_cosine_similarity norm v1 v2
        = max 0 (min 1 ((cosine_similarity norm v1 v2 + 1) / 2))
      ∧ (-1 ≤ cosine_similarity norm v1 v2 ∧ cosine_similarity norm v1 v2 ≤ 1)
      ∧ (0 ≤ calculate_cosine_similarity norm v1 v2
          ∧ calculate_cosine_similarity norm v1 v2 ≤ 1)
      ∧ (cosine_similarity exNorm exE1 exE2 < 1/2
          ∧ ¬ calculate_cosine_similarity exNorm exE1 exE2 < 1/2)
      ∧ (semanticChunksCore exNorm [exSent1, exSent2] [exE1, exE2] "doc" none none
          (1/2) 1 50 5).length = 2 := by
  have heq : calculate_cosine_similarity norm v1 v2
      = max 0 (min 1 ((cosine_similarity norm v1 v2 + 1) / 2)) := by
    simp only [calculate_cosine_similarity, cosine_similarity]
    rw [if_neg (by tauto), if_neg (by tauto)]
  have hraw : cosine_similarity exNorm exE1 exE2 = 0 := by
    norm_num [cosine_similarity, exNorm, exE1, exE2, dotQ]
  have hcalc : calculate_cosine_similarity exNorm exE1 exE2 = 1/2 := by
    norm_num [calculate_cosine_similarity, exNorm, exE1, exE2, dotQ]
  refine ⟨heq, cosine_similarity_mem norm v1 v2 he1 he2, ?_, ?_, ?_⟩
  · rw [heq]
    constructor
    · exact le_max_left 0 _
    · have hmin : min 1 ((cosine_similarity norm v1 v2 + 1) / 2) ≤ 1 :=
        min_le_left 1 _
      simp only [max_le_iff]
      exact ⟨by norm_num, hmin⟩
  · rw [hraw, hcalc]
    norm_num
  · norm_num [semanticChunksCore, semGo, avgBufferSim, shouldSplit, meanQ,
      cosine_similarity, exNorm, exE1, exE2, dotQ, pySliceNat, List.range']

/-- Witness for C8 at the orthogonal unit vectors. -/
theorem claim_C8_witness :
    exNorm exE1 ≠ 0 ∧ exNorm exE2 ≠ 0
      ∧ IsEuclidOn exNorm exE1 ∧ IsEuclidOn exNorm exE2
      ∧ (calculate_cosine_similarity exNorm exE1 exE2
          = max 0 (min 1 ((cosine_similarity exNorm exE1 exE2 + 1) / 2))
        ∧ (-1 ≤ cosine_similarity exNorm exE1 exE2
            ∧ cosine_similarity exNorm exE1 exE2 ≤ 1)
        ∧ (0 ≤ calculate_cosine_similarity exNorm exE1 exE2
            ∧ calculate_cosine_similarity exNorm exE1 exE2 ≤ 1)
        ∧ (cosine_similarity exNorm exE1 exE2 < 1/2
            ∧ ¬ calculate_cosine_similarity exNorm exE1 exE2 < 1/2)
        ∧ (semanticChunksCore exNorm [exSent1, exSent2] [exE1, exE2] "doc" none none
            (1/2) 1 50 5).length = 2) :=
  ⟨by simp [exNorm, exE1, dotQ], by simp [exNorm, exE2, dotQ],
    ⟨by simp [exNorm, exE1, dotQ], by simp [exNorm, exE1, dotQ]⟩,
    ⟨by simp [exNorm, exE2, dotQ], by simp [exNorm, exE2, dotQ]⟩,
    claim_C8 exNorm exE1 exE2 (by simp [exNorm, exE1, dotQ])
      (by simp [exNorm, exE2, dotQ])
      ⟨by simp [exNorm, exE1, dotQ], by simp [exNorm, exE1, dotQ]⟩
      ⟨by simp [exNorm, exE2, dotQ], by simp [exNorm, exE2, dotQ]⟩⟩

/-! ### Cohere reranker (cohere_rerank.py:21-69)

The document dicts are free-form Python dicts, modelled as association
lists of string keys to Python values. The provider call
`self.client.rerank(...)` is the external cross-encoder; its outcome for the
given query and texts is a parameter of type `Except`: `Except.error`
models any exception raised during the `try` block's provider call, and the
index lookup `documents[result.index]` inside the same `try` block is
likewise routed into the fallback when it raises `IndexError`. -/

inductive PyVal where
  | str : String → PyVal
  | num : ℚ → PyVal
  | dict : List (String × PyVal) → PyVal
  | list : List PyVal → PyVal

/-- A Python dict with string keys. -/
def PyDict : Type := List (String × PyVal)

/-- Python `d.get(k, default)`. -/
def dictGet (d : PyDict) (k : String) (default : PyVal) : PyVal :=
  match d.find? (fun p => p.1 = k) with
  | some p => p.2
  | none => default

/-- One entry of the provider response: `result.index` into the input texts
and `result.relevance_score`. -/
structure RerankEntry where
  index : Nat
  relevance_score : ℚ

/-- `texts = [doc.get('text', '') for doc in documents]` (cohere_rerank.py:42). -/
def rerankTexts (documents : List PyDict) : List PyVal :=
  documents.map (fun doc => dictGet doc "text" (PyVal.str ""))

/-- The combine loop (cohere_rerank.py:54-61): for every provider entry,
build `{'score': …, 'metadata': original_doc.get('metadata', {}),
'index': …}` from `documents[result.index]`; a bad index raises (inside the
same `try`) and is modelled as an error. -/
def rerankCombine (documents : List PyDict) :
    List RerankEntry → Except String (List PyDict)
  | [] => Except.ok []
  | r :: rest =>
    match documents.get? r.index with
    | some original_doc =>
      match rerankCombine documents rest with
      | Except.ok tail => Except.ok
          (([("score", PyVal.num r.relevance_score),
             ("metadata", dictGet original_doc "metadata" (PyVal.dict [])),
             ("index", PyVal.num (r.index : ℚ))] : PyDict) :: tail)
      | Except.error e => Except.error e
    | none => Except.error "IndexError"

/-- `CohereReranker.rerank` (cohere_rerank.py:21-69). `provider` is the
outcome of the Cohere API call as a function of the query and the extracted
texts; any error inside the `try` block falls back to
`documents[:top_n]`. -/
def rerank (provider : String → List PyVal → Except String (List RerankEntry))
    (query : String) (documents : List PyDict) (top_n : Nat) : List PyDict :=
  match provider query (rerankTexts documents) >>= rerankCombine documents with
  | Except.ok reranked_docs => reranked_docs
  | Except.error _ => documents.take top_n

theorem exceptBind_ok {ε α β : Type} (a : α) (f : α → Except ε β) :
    (Except.ok a >>= f : Except ε β) = f a := rfl

theorem exceptBind_error {ε α β : Type} (e : ε) (f : α → Except ε β) :
    ((Except.error e : Except ε α) >>= f : Except ε β) = Except.error e := rfl

/-! ### Claim C2 -/

/-- Claim C2: if the provider call throws, `rerank` does not raise and
returns exactly the first `top_n` documents of the input — all of them when
fewer than `top_n` exist — in their original order (the result is a prefix
of the input of length `min top_n (number of candidates)`). -/
theorem claim_C2 (provider : String → List PyVal → Except String (List RerankEntry))
    (query : String) (documents : List PyDict) (top_n : Nat) (e : String)
    (herr : provider query (rerankTexts documents) = Except.error e) :
    rerank provider query documents top_n = documents.take top_n
      ∧ (rerank provider query documents top_n).length = min top_n documents.length
      ∧ ∃ rest, rerank provider query documents top_n ++ rest = documents := by
  have hr : rerank provider query documents top_n = documents.take top_n := by
    simp [rerank, herr, exceptBind_error]
  refine ⟨hr, ?_, ?_⟩
  · rw [hr, List.length_take]
  · rw [hr]
    exact ⟨documents.drop top_n, List.take_append_drop top_n documents⟩

/-- Fixture dicts for the rerank witnesses. -/
def exDocA : PyDict := [("text", PyVal.str "eerste"), ("metadata", PyVal.dict [("p", PyVal.num 1)])]

def exDocB : PyDict := [("text", PyVal.str "tweede")]

def exDocC : PyDict := [("text", PyVal.str "derde")]

/-- A provider that always fails (timeout, quota, malformed response). -/
def exFailProvider : String → List PyVal → Except String (List RerankEntry) :=
  fun _ _ => Except.error "429 rate limit"

/-- Witness for C2: three candidates, `top_n = 2`, failing provider. -/
theorem claim_C2_witness :
    exFailProvider "vraag" (rerankTexts [exDocA, exDocB, exDocC])
        = Except.error "429 rate limit"
      ∧ (rerank exFailProvider "vraag" [exDocA, exDocB, exDocC] 2
            = [exDocA, exDocB, exDocC].take 2
        ∧ (rerank exFailProvider "vraag" [exDocA, exDocB, exDocC] 2).length
            = min 2 [exDocA, exDocB, exDocC].length
        ∧ ∃ rest, rerank exFailProvider "vraag" [exDocA, exDocB, exDocC] 2 ++ rest
            = [exDocA, exDocB, exDocC]) :=
  ⟨rfl, claim_C2 exFailProvider "vraag" [exDocA, exDocB, exDocC] 2 "429 rate limit" rfl⟩

/-! ### Claim C9 -/

/-- A provider that succeeds with a fixed response. -/
def exOkProvider : String → List PyVal → Except String (List RerankEntry) :=
  fun _ _ => Except.ok [⟨2, 9/10⟩, ⟨0, 3/10⟩]

theorem rerankCombine_keys (documents : List PyDict) :
    ∀ rs out, rerankCombine documents rs = Except.ok out →
    ∀ d ∈ out, d.map Prod.fst = ["score", "metadata", "index"] := by
  intro rs
  induction rs with
  | nil =>
    intro out h d hd
    simp only [rerankCombine] at h
    cases h
    simp at hd
  | cons r rest ih =>
    intro out h d hd
    simp only [rerankCombine] at h
    cases hidx : documents.get? r.index with
    | none => rw [hidx] at h; cases h
    | some original_doc =>
      rw [hidx] at h
      cases hrec : rerankCombine documents rest with
      | error e => rw [hrec] at h; cases h
      | ok tail =>
        rw [hrec] at h
        cases h
        rcases List.mem_cons.mp hd with hd1 | hd2
        · rw [hd1]; rfl
        · exact ih tail hrec d hd2

/-- Claim C9: on provider success the returned records have exactly the keys
`score`, `metadata`, `index` (in that order), while on provider failure the
returned items are the unmodified input dicts themselves — a different
record shape on the two paths. -/
theorem claim_C9 (provider : String → List PyVal → Except String (List RerankEntry))
    (query : String) (documents : List PyDict) (top_n : Nat)
    (rs : List RerankEntry) (out : List PyDict)
    (hok : provider query (rerankTexts documents) = Except.ok rs)
    (hcomb : rerankCombine documents rs = Except.ok out) :
    rerank provider query documents top_n = out
      ∧ (∀ d ∈ out, d.map Prod.fst = ["score", "metadata", "index"])
      ∧ rerank exFailProvider query documents top_n = documents.take top_n
      ∧ ∀ d ∈ rerank exFailProvider query documents top_n, d ∈ documents := by
  refine ⟨?_, ?_, ?_, ?_⟩
  · simp [rerank, hok, exceptBind_ok, hcomb]
  · exact rerankCombine_keys documents rs out hcomb
  · simp [rerank, exFailProvider, exceptBind_error]
  · intro d hd
    simp only [rerank, exFailProvider, exceptBind_error] at hd
    exact List.mem_of_mem_take hd

/-- The records the combine loop builds for `exOkProvider`'s response on
`[exDocA, exDocB, exDocC]`. -/
def exOut : List PyDict :=
  [[("score", PyVal.num (9/10)), ("metadata", PyVal.dict []),
    ("index", PyVal.num ((2 : Nat) : ℚ))],
   [("score", PyVal.num (3/10)), ("metadata", PyVal.dict [("p", PyVal.num 1)]),
    ("index", PyVal.num ((0 : Nat) : ℚ))]]

/-- Witness for C9: a successful provider response with indices 2 and 0, and
the failing provider on the same candidates. -/
theorem claim_C9_witness :
    exOkProvider "vraag" (rerankTexts [exDocA, exDocB, exDocC])
        = Except.ok [⟨2, 9/10⟩, ⟨0, 3/10⟩]
      ∧ rerankCombine [exDocA, exDocB, exDocC]
          ([⟨2, 9/10⟩, ⟨0, 3/10⟩] : List RerankEntry) = Except.ok exOut
      ∧ (rerank exOkProvider "vraag" [exDocA, exDocB, exDocC] 2 = exOut
        ∧ (∀ d ∈ exOut, d.map Prod.fst = ["score", "metadata", "index"])
        ∧ rerank exFailProvider "vraag" [exDocA, exDocB, exDocC] 2
            = [exDocA, exDocB, exDocC].take 2
        ∧ ∀ d ∈ rerank exFailProvider "vraag" [exDocA, exDocB, exDocC] 2,
            d ∈ [exDocA, exDocB, exDocC]) :=
  ⟨rfl, rfl,
    claim_C9 exOkProvider "vraag" [exDocA, exDocB, exDocC] 2
      ([⟨2, 9/10⟩, ⟨0, 3/10⟩] : List RerankEntry) exOut rfl rfl⟩

/-! ### Citation service (citation_service.py)

Crawled content items are dicts; the keys the service reads are modelled as
fields, optional ones (read via `content.get(k, default)` or
`'k' in content and content['k']`) as `Option`. The uuid generator, the
`urlparse`-based domain extraction and `datetime.now()` are external
effects: the last two are collaborator parameters, the fresh uuid is an
opaque placeholder string (no claim depends on `id`). -/

structure CrawledContent where
  text : String
  url : String
  title : Option String
  domain : Option String
  extracted_at : Option String
  downloadUrl : Option String
  publisher : Option String
  format : Option String
  type : Option String
  publishedDate : Option String
  modifiedDate : Option String

/-- A scored item: `{**content, 'relevance_score': score}`
(citation_service.py:129-132). -/
structure ScoredContent where
  content : CrawledContent
  relevance_score : ℚ

structure Citation where
  id : String
  url : String
  title : String
  snippet : String
  relevanceScore : ℚ
  domain : String
  crawledAt : String
  highlightText : String
  downloadUrl : Option String
  publisher : Option String
  format : Option String
  type : Option String
  publishedDate : Option String
  modifiedDate : Option String

/-- Python truthiness filter for an optional string field (`'k' in content
and content['k']`). -/
def pyOptTruthy (o : Option String) : Option String :=
  match o with
  | some s => if s = "" then none else some s
  | none => none

/-- Python `s.strip()` over the character sequence: whitespace removed from
both ends. -/
def pyStrip (cs : List Char) : List Char :=
  ((cs.dropWhile Char.isWhitespace).reverse.dropWhile Char.isWhitespace).reverse

/-- The three-character ellipsis `"..."`. -/
def ellipsisChars : List Char := ['.', '.', '.']

/-- `CitationService._extract_snippet` (citation_service.py:59-85), over the
text's character sequence (a Python `str` is a sequence of characters). The
float comparison `last_space > max_length * 0.7` is modelled over ℚ; at the
only call-site value `max_length = 300` the IEEE double `300 * 0.7` is
exactly `210.0`, so the rational model agrees with the float code there. -/
def extract_snippet (text : List Char) (max_length : Nat) : List Char :=
  if text = [] then []
  else
    let t := pyStrip text
    if t.length ≤ max_length then t
    else
      let snippet := t.take max_length
      let last_space := rfindChar snippet ' '
      if (max_length : ℚ) * (7/10) < (last_space : ℚ) then
        snippet.take last_space.toNat ++ ellipsisChars
      else snippet ++ ellipsisChars

/-- The relevance score of one content item (citation_service.py:110-127):
cosine similarity, renormalised to [0,1], between the query embedding and
the embedding of the first 1000 characters of the text. -/
def contentScore (norm : List ℚ → ℚ) (embed : String → List ℚ) (query : String)
    (content : CrawledContent) : ℚ :=
  calculate_cosine_similarity norm (embed query) (embed (strTake content.text 1000))

/-- The scored list before sorting (citation_service.py:113-136): items with
empty text are skipped. -/
def scoredOf (norm : List ℚ → ℚ) (embed : String → List ℚ) (query : String)
    (crawled_content : List CrawledContent) : List ScoredContent :=
  crawled_content.filterMap (fun content =>
    if content.text = "" then none
    else some ⟨content, contentScore norm embed query content⟩)

/-- The stable descending sort by `relevance_score`
(citation_service.py:139). -/
def sortedScored (norm : List ℚ → ℚ) (embed : String → List ℚ) (query : String)
    (crawled_content : List CrawledContent) : List ScoredContent :=
  (scoredOf norm embed query crawled_content).mergeSort
    (fun a b => decide (b.relevance_score ≤ a.relevance_score))

/-- `CitationService.score_citations` (citation_service.py:87-149). -/
def score_citations (norm : List ℚ → ℚ) (embed : String → List ℚ) (query : String)
    (crawled_content : List CrawledContent) (top_k : Nat) : List ScoredContent :=
  if crawled_content.isEmpty then []
  else (sortedScored norm embed query crawled_content).take top_k

/-- `CitationService.format_citations` (citation_service.py:151-206) for one
item. -/
def formatCitation (extractDomain : String → String) (now : String)
    (sc : ScoredContent) : Citation :=
  { id := "uuid4"
    url := sc.content.url
    title := match sc.content.title with | some t => t | none => "Untitled"
    snippet := String.mk (extract_snippet sc.content.text.toList 300)
    relevanceScore := sc.relevance_score
    domain := match sc.content.domain with
      | some d => d
      | none => extractDomain sc.content.url
    crawledAt := match sc.content.extracted_at with | some t => t | none => now
    highlightText := sc.content.text
    downloadUrl := pyOptTruthy sc.content.downloadUrl
    publisher := pyOptTruthy sc.content.publisher
    format := pyOptTruthy sc.content.format
    type := pyOptTruthy sc.content.type
    publishedDate := pyOptTruthy sc.content.publishedDate
    modifiedDate := pyOptTruthy sc.content.modifiedDate }

def format_citations (extractDomain : String → String) (now : String)
    (scored_content : List ScoredContent) : List Citation :=
  scored_content.map (formatCitation extractDomain now)

/-- The loop of `CitationService.deduplicate_citations`
(citation_service.py:218-225): keep a citation when its lower-cased url is
non-empty and unseen. -/
def dedupGo (seen_urls : List String) : List Citation → List Citation
  | [] => []
  | citation :: rest =>
    if citation.url.toLower ≠ "" ∧ citation.url.toLower ∉ seen_urls then
      citation :: dedupGo (citation.url.toLower :: seen_urls) rest
    else dedupGo seen_urls rest

/-- `CitationService.deduplicate_citations` (citation_service.py:208-228). -/
def deduplicate_citations (citations : List Citation) : List Citation :=
  dedupGo [] citations

/-- `CitationService.process_citations` (citation_service.py:230-256):
score, format, deduplicate. -/
def process_citations (norm : List ℚ → ℚ) (embed : String → List ℚ)
    (extractDomain : String → String) (now : String) (query : String)
    (crawled_content : List CrawledContent) (top_k : Nat) : List Citation :=
  deduplicate_citations (format_citations extractDomain now
    (score_citations norm embed query crawled_content top_k))

/-! ### Claim C5: snippet truncation -/

theorem rfindChar_spec (c : Char) :
    ∀ l : List Char,
    (rfindChar l c = -1 ∧ ∀ j, l.get? j ≠ some c)
    ∨ (0 ≤ rfindChar l c ∧ l.get? (rfindChar l c).toNat = some c
        ∧ ∀ j, (rfindChar l c).toNat < j → l.get? j ≠ some c) := by
  intro l
  induction l with
  | nil =>
    left
    exact ⟨rfl, fun j => by simp⟩
  | cons a t ih =>
    rcases ih with ⟨hval, hnone⟩ | ⟨hge, hget, hlast⟩
    · by_cases hac : a = c
      · right
        have hv : rfindChar (a :: t) c = 0 := by
          simp [rfindChar, hval, hac]
        refine ⟨by omega, ?_, ?_⟩
        · rw [hv, hac]; rfl
        · intro j hj
          rw [hv] at hj
          match j, hj with
          | j + 1, _ => exact hnone j
      · left
        have hv : rfindChar (a :: t) c = -1 := by
          simp [rfindChar, hval, hac]
        refine ⟨hv, ?_⟩
        intro j
        match j with
        | 0 => simpa using hac
        | j + 1 => exact hnone j
    · right
      have hv : rfindChar (a :: t) c = rfindChar t c + 1 := by
        simp [rfindChar]
        omega
      have htn : (rfindChar t c + 1).toNat = (rfindChar t c).toNat + 1 := by omega
      refine ⟨by omega, ?_, ?_⟩
      · rw [hv, htn]
        simpa using hget
      · intro j hj
        rw [hv, htn] at hj
        match j, hj with
        | j + 1, hj => exact hlast j (by omega)

/-- Claim C5: for a text whose stripped form exceeds 300 characters, the
snippet is the 300-character window cut back to the last space when that
space lies strictly after position `300 * 0.7 = 210` (a word boundary: the
dropped character is a space and no later space exists in the window), and
otherwise the hard cut of all 300 characters plus the ellipsis (length
exactly 303). In all cases the snippet is at most 303 characters (first
conjunct, for every text). -/
theorem claim_C5 (text : List Char) (h : 300 < (pyStrip text).length) :
    (∀ s : List Char, (extract_snippet s 300).length ≤ 303)
    ∧ ((210 : Int) < rfindChar ((pyStrip text).take 300) ' '
        ↔ ∃ j, 210 < j ∧ ((pyStrip text).take 300).get? j = some ' ')
    ∧ ((210 : Int) < rfindChar ((pyStrip text).take 300) ' ' →
        extract_snippet text 300
          = ((pyStrip text).take 300).take
              (rfindChar ((pyStrip text).take 300) ' ').toNat ++ ellipsisChars
        ∧ ((pyStrip text).take 300).get?
            (rfindChar ((pyStrip text).take 300) ' ').toNat = some ' '
        ∧ ∀ j, (rfindChar ((pyStrip text).take 300) ' ').toNat < j →
            ((pyStrip text).take 300).get? j ≠ some ' ')
    ∧ (¬ (210 : Int) < rfindChar ((pyStrip text).take 300) ' ' →
        extract_snippet text 300 = (pyStrip text).take 300 ++ ellipsisChars
        ∧ (extract_snippet text 300).length = 303) := by
  have hq : ∀ k : Int, (((300 : Nat) : ℚ) * (7/10) < (k : ℚ)) ↔ (210 : Int) < k := by
    intro k
    constructor
    · intro hk
      by_contra hc
      push_neg at hc
      have hck : ((k : ℚ)) ≤ ((210 : Int) : ℚ) := by exact_mod_cast hc
      norm_num at hck hk
      linarith
    · intro hk
      have hck : ((210 : Int) : ℚ) < (k : ℚ) := by exact_mod_cast hk
      norm_num at hck ⊢
      linarith
  have hbound : ∀ s : List Char, (extract_snippet s 300).length ≤ 303 := by
    intro s
    by_cases hs : s = []
    · simp [extract_snippet, hs]
    · simp only [extract_snippet, if_neg hs]
      by_cases hshort : (pyStrip s).length ≤ 300
      · rw [if_pos hshort]; omega
      · rw [if_neg hshort]
        have hwlen : ((pyStrip s).take 300).length = 300 := by
          rw [List.length_take]; omega
        by_cases hcond : ((300 : Nat) : ℚ) * (7/10)
            < ((rfindChar ((pyStrip s).take 300) ' ' : Int) : ℚ)
        · rw [if_pos hcond]
          rw [List.length_append, List.length_take, List.length_take]
          have h3 : ellipsisChars.length = 3 := rfl
          omega
        · rw [if_neg hcond]
          rw [List.length_append, hwlen]
          rfl
  have hspec := rfindChar_spec ' ' ((pyStrip text).take 300)
  have hne : text ≠ [] := by
    intro he
    subst he
    have hz : pyStrip ([] : List Char) = [] := rfl
    rw [hz] at h
    simp at h
  have hwlen : ((pyStrip text).take 300).length = 300 := by
    rw [List.length_take]; omega
  refine ⟨hbound, ?_, ?_, ?_⟩
  · constructor
    · intro hgt
      rcases hspec with ⟨hval, _⟩ | ⟨hge, hget, _⟩
      · rw [hval] at hgt; omega
      · exact ⟨(rfindChar ((pyStrip text).take 300) ' ').toNat, by omega, hget⟩
    · rintro ⟨j, hj, hget⟩
      rcases hspec with ⟨_, hnone⟩ | ⟨hge, _, hlast⟩
      · exact absurd hget (hnone j)
      · by_contra hc
        push_neg at hc
        exact hlast j (by omega) hget
  · intro hgt
    rcases hspec with ⟨hval, _⟩ | ⟨hge, hget, hlast⟩
    · rw [hval] at hgt; omega
    · refine ⟨?_, hget, hlast⟩
      simp only [extract_snippet, if_neg hne,
        if_neg (by omega : ¬ (pyStrip text).length ≤ 300)]
      rw [if_pos ((hq _).mpr hgt)]
  · intro hngt
    have heq : extract_snippet text 300 = (pyStrip text).take 300 ++ ellipsisChars := by
      simp only [extract_snippet, if_neg hne,
        if_neg (by omega : ¬ (pyStrip text).length ≤ 300)]
      rw [if_neg (fun hc => hngt ((hq _).mp hc))]
    refine ⟨heq, ?_⟩
    rw [heq, List.length_append, hwlen]
    rfl

/-- A 311-character text: 250 letters, one space, 60 letters. -/
def exLongText : List Char :=
  List.replicate 250 'a' ++ [' '] ++ List.replicate 60 'b'

/-- Witness for C5: the space of `exLongText` sits at window position 250,
inside the last 30% of the 300-character window. -/
theorem claim_C5_witness :
    300 < (pyStrip exLongText).length
    ∧ ((∀ s : List Char, (extract_snippet s 300).length ≤ 303)
      ∧ ((210 : Int) < rfindChar ((pyStrip exLongText).take 300) ' '
          ↔ ∃ j, 210 < j ∧ ((pyStrip exLongText).take 300).get? j = some ' ')
      ∧ ((210 : Int) < rfindChar ((pyStrip exLongText).take 300) ' ' →
          extract_snippet exLongText 300
            = ((pyStrip exLongText).take 300).take
                (rfindChar ((pyStrip exLongText).take 300) ' ').toNat ++ ellipsisChars
          ∧ ((pyStrip exLongText).take 300).get?
              (rfindChar ((pyStrip exLongText).take 300) ' ').toNat = some ' '
          ∧ ∀ j, (rfindChar ((pyStrip exLongText).take 300) ' ').toNat < j →
              ((pyStrip exLongText).take 300).get? j ≠ some ' ')
      ∧ (¬ (210 : Int) < rfindChar ((pyStrip exLongText).take 300) ' ' →
          extract_snippet exLongText 300 = (pyStrip exLongText).take 300 ++ ellipsisChars
          ∧ (extract_snippet exLongText 300).length = 303)) :=
  ⟨by set_option maxRecDepth 40000 in decide,
    claim_C5 exLongText (by set_option maxRecDepth 40000 in decide)⟩

/-! ### Claim C4: citation deduplication keeps the best-scoring occurrence -/

theorem dedupGo_not_seen :
    ∀ (l : List Citation) (seen : List String) (c : Citation),
    c ∈ dedupGo seen l → c.url.toLower ∉ seen ∧ c.url.toLower ≠ "" := by
  intro l
  induction l with
  | nil => intro seen c hc; simp [dedupGo] at hc
  | cons a rest ih =>
    intro seen c hc
    simp only [dedupGo] at hc
    by_cases hcond : a.url.toLower ≠ "" ∧ a.url.toLower ∉ seen
    · rw [if_pos hcond] at hc
      rcases List.mem_cons.mp hc with h1 | h2
      · subst h1; exact ⟨hcond.2, hcond.1⟩
      · have hrec := ih _ c h2
        exact ⟨fun hs => hrec.1 (List.mem_cons_of_mem _ hs), hrec.2⟩
    · rw [if_neg hcond] at hc
      exact ih seen c hc

theorem dedupGo_pairwise :
    ∀ (l : List Citation) (seen : List String),
    List.Pairwise (fun a b : Citation => a.url.toLower ≠ b.url.toLower)
      (dedupGo seen l) := by
  intro l
  induction l with
  | nil => intro seen; simp [dedupGo]
  | cons a rest ih =>
    intro seen
    simp only [dedupGo]
    by_cases hcond : a.url.toLower ≠ "" ∧ a.url.toLower ∉ seen
    · rw [if_pos hcond]
      refine List.Pairwise.cons ?_ (ih _)
      intro b hb heq
      have hrec := dedupGo_not_seen rest _ b hb
      exact hrec.1 (by rw [← heq]; exact List.mem_cons_self _ _)
    · rw [if_neg hcond]
      exact ih seen

theorem dedupGo_split :
    ∀ (l : List Citation) (seen : List String) (c : Citation),
    c ∈ dedupGo seen l →
    ∃ l1 l2, l = l1 ++ c :: l2 ∧ ∀ b ∈ l1, b.url.toLower ≠ c.url.toLower := by
  intro l
  induction l with
  | nil => intro seen c hc; simp [dedupGo] at hc
  | cons a rest ih =>
    intro seen c hc
    simp only [dedupGo] at hc
    by_cases hcond : a.url.toLower ≠ "" ∧ a.url.toLower ∉ seen
    · rw [if_pos hcond] at hc
      rcases List.mem_cons.mp hc with h1 | h2
      · exact ⟨[], rest, by rw [h1]; rfl, by simp⟩
      · obtain ⟨l1, l2, heq, hl1⟩ := ih _ c h2
        have hcnot := dedupGo_not_seen rest _ c h2
        refine ⟨a :: l1, l2, by rw [heq]; rfl, ?_⟩
        intro b hb
        rcases List.mem_cons.mp hb with hb1 | hb2
        · subst hb1
          intro habs
          exact hcnot.1 (by rw [← habs]; exact List.mem_cons_self _ _)
        · exact hl1 b hb2
    · rw [if_neg hcond] at hc
      obtain ⟨l1, l2, heq, hl1⟩ := ih seen c hc
      have hcnot := dedupGo_not_seen rest seen c hc
      refine ⟨a :: l1, l2, by rw [heq]; rfl, ?_⟩
      intro b hb
      rcases List.mem_cons.mp hb with hb1 | hb2
      · subst hb1
        rcases not_and_or.mp hcond with hb3 | hb4
        · push_neg at hb3
          intro habs
          exact hcnot.2 (by rw [← habs, hb3])
        · push_neg at hb4
          intro habs
          exact hcnot.1 (by rw [← habs]; exact hb4)
      · exact hl1 b hb2

theorem map_split {α β : Type} (f : α → β) :
    ∀ (l : List α) l1 c l2, l.map f = l1 ++ c :: l2 →
    ∃ x1 t x2, l = x1 ++ t :: x2 ∧ x1.map f = l1 ∧ f t = c ∧ x2.map f = l2 := by
  intro l
  induction l with
  | nil =>
    intro l1 c l2 h
    rw [List.map_nil] at h
    cases l1 <;> simp at h
  | cons a t ih =>
    intro l1 c l2 h
    cases l1 with
    | nil =>
      rw [List.map_cons] at h
      simp only [List.nil_append] at h
      have h1 := List.head_eq_of_cons_eq h
      have h2 := List.tail_eq_of_cons_eq h
      exact ⟨[], a, t, rfl, rfl, h1, h2⟩
    | cons b l1' =>
      rw [List.map_cons] at h
      simp only [List.cons_append] at h
      have h1 := List.head_eq_of_cons_eq h
      have h2 := List.tail_eq_of_cons_eq h
      obtain ⟨x1, u, x2, ht, hm1, hm2, hm3⟩ := ih l1' c l2 h2
      exact ⟨a :: x1, u, x2, by rw [ht]; rfl,
        by rw [List.map_cons, hm1, h1], hm2, hm3⟩

theorem mem_scoredOf (norm : List ℚ → ℚ) (embed : String → List ℚ)
    (query : String) (crawled : List CrawledContent) (sc : ScoredContent) :
    sc ∈ scoredOf norm embed query crawled
      ↔ ∃ x ∈ crawled, x.text ≠ ""
          ∧ sc = ⟨x, contentScore norm embed query x⟩ := by
  simp only [scoredOf, List.mem_filterMap]
  constructor
  · rintro ⟨x, hx, hfx⟩
    by_cases hxe : x.text = ""
    · rw [if_pos hxe] at hfx; cases hfx
    · rw [if_neg hxe] at hfx
      exact ⟨x, hx, hxe, (Option.some.inj hfx).symm⟩
  · rintro ⟨x, hx, hxe, hsc⟩
    exact ⟨x, hx, by rw [if_neg hxe, hsc]⟩

theorem sortedScored_pairwise (norm : List ℚ → ℚ) (embed : String → List ℚ)
    (query : String) (crawled : List CrawledContent) :
    List.Pairwise (fun a b : ScoredContent => b.relevance_score ≤ a.relevance_score)
      (sortedScored norm embed query crawled) := by
  have h := @List.sorted_mergeSort ScoredContent
    (fun a b : ScoredContent => decide (b.relevance_score ≤ a.relevance_score))
    (fun a b c hab hbc => by
      simp only [decide_eq_true_eq] at *
      exact le_trans hbc hab)
    (fun a b => by
      simp only [Bool.or_eq_true, decide_eq_true_eq]
      exact le_total b.relevance_score a.relevance_score)
    (scoredOf norm embed query crawled)
  exact h.imp (fun hab => by simpa using hab)

theorem mem_sortedScored (norm : List ℚ → ℚ) (embed : String → List ℚ)
    (query : String) (crawled : List CrawledContent) (sc : ScoredContent) :
    sc ∈ sortedScored norm embed query crawled
      ↔ sc ∈ scoredOf norm embed query crawled := by
  exact (List.mergeSort_perm (scoredOf norm embed query crawled) _).mem_iff

theorem formatCitation_url (ed : String → String) (now : String)
    (sc : ScoredContent) : (formatCitation ed now sc).url = sc.content.url := rfl

theorem formatCitation_score (ed : String → String) (now : String)
    (sc : ScoredContent) :
    (formatCitation ed now sc).relevanceScore = sc.relevance_score := rfl

/-- Claim C4: after `process_citations`, each case-insensitively compared
URL appears at most once, and every surviving citation carries the score of
an actual input occurrence of its URL that is maximal among all scored
occurrences of that URL (items with empty text are never scored, and the
code drops citations whose URL is empty). -/
theorem claim_C4 (norm : List ℚ → ℚ) (embed : String → List ℚ)
    (extractDomain : String → String) (now query : String)
    (crawled : List CrawledContent) (top_k : Nat) :
    List.Pairwise (fun a b : Citation => a.url.toLower ≠ b.url.toLower)
      (process_citations norm embed extractDomain now query crawled top_k)
    ∧ ∀ c ∈ process_citations norm embed extractDomain now query crawled top_k,
        (∃ x ∈ crawled, x.url = c.url
          ∧ c.relevanceScore = contentScore norm embed query x)
        ∧ ∀ x ∈ crawled, x.text ≠ "" → x.url.toLower = c.url.toLower →
            contentScore norm embed query x ≤ c.relevanceScore := by
  constructor
  · exact dedupGo_pairwise _ []
  · intro c hc
    simp only [process_citations, deduplicate_citations] at hc
    by_cases hempty : crawled.isEmpty
    · simp only [score_citations, if_pos hempty, format_citations,
        List.map_nil, dedupGo] at hc
      cases hc
    · simp only [score_citations, if_neg hempty, format_citations] at hc
      obtain ⟨l1, l2, hsplit, hl1⟩ := dedupGo_split _ [] c hc
      obtain ⟨x1, t, x2, htk, hm1, hfmt, hm2⟩ :=
        map_split (formatCitation extractDomain now) _ l1 c l2 hsplit
      have hSdecomp : sortedScored norm embed query crawled
          = x1 ++ t :: (x2 ++ (sortedScored norm embed query crawled).drop top_k) := by
        conv_lhs => rw [← List.take_append_drop top_k
          (sortedScored norm embed query crawled)]
        rw [htk]
        simp [List.append_assoc]
      have hpw := sortedScored_pairwise norm embed query crawled
      rw [hSdecomp] at hpw
      have hafter : ∀ s ∈ x2 ++ (sortedScored norm embed query crawled).drop top_k,
          s.relevance_score ≤ t.relevance_score := by
        have h2 := (List.pairwise_append.mp hpw).2.1
        exact fun s hs => (List.pairwise_cons.mp h2).1 s hs
      have htS : t ∈ sortedScored norm embed query crawled := by
        rw [hSdecomp]
        exact List.mem_append.mpr (Or.inr (List.mem_cons_self _ _))
      obtain ⟨x0, hx0, hx0e, hteq⟩ :=
        (mem_scoredOf norm embed query crawled t).mp
          ((mem_sortedScored norm embed query crawled t).mp htS)
      have hcurl : c.url = t.content.url := by rw [← hfmt]; rfl
      have hcscore : c.relevanceScore = t.relevance_score := by rw [← hfmt]; rfl
      constructor
      · refine ⟨x0, hx0, ?_, ?_⟩
        · rw [hcurl, hteq]
        · rw [hcscore, hteq]
      · intro x hx hxe hxurl
        have hsS : (⟨x, contentScore norm embed query x⟩ : ScoredContent)
            ∈ sortedScored norm embed query crawled :=
          (mem_sortedScored norm embed query crawled _).mpr
            ((mem_scoredOf norm embed query crawled _).mpr ⟨x, hx, hxe, rfl⟩)
        rw [hSdecomp] at hsS
        rcases List.mem_append.mp hsS with hin1 | hin2
        · exfalso
          have hmem : formatCitation extractDomain now
              ⟨x, contentScore norm embed query x⟩ ∈ l1 := by
            rw [← hm1]
            exact List.mem_map_of_mem _ hin1
          exact hl1 _ hmem hxurl
        · rcases List.mem_cons.mp hin2 with hin3 | hin4
          · have hx3 : contentScore norm embed query x = t.relevance_score := by
              rw [← hin3]
            rw [hcscore, hx3]
          · have hle := hafter _ hin4
            rw [hcscore]
            exact hle

/-! ### Claim C1: the retrieval call in the chat endpoint (rag_service.py:151-203, app.py:311-317)

`RAGService.query` in rag_service.py is
`def query(self, query, top_k=5, filters=None)`: it embeds the query once,
searches Qdrant with `limit=top_k`, and formats the hits; it has NO
`initial_k` parameter, NO reranking step, and never touches
`CohereReranker`. The chat endpoint (app.py:313-317) nevertheless calls
`rag_service.query(query=query, top_k=5, initial_k=30)`. In Python, a
keyword argument that matches no parameter of a function without `**kwargs`
raises `TypeError` before the body runs. -/

/-- One Qdrant search hit: `hit.score` and `hit.payload`. The Qdrant client
is the Vector Store collaborator. -/
structure QdrantPoint where
  score : ℚ
  payload : List (String × PyVal)

/-- The body of `RAGService.query` (rag_service.py:151-203): embed once,
search with `limit = top_k`, format each hit into a source dict. The
`filters` argument is forwarded to the store. There is no reranking and no
broader initial search. -/
def rag_query (embed : String → List ℚ)
    (search : List ℚ → Option PyDict → Nat → List QdrantPoint)
    (query : String) (top_k : Nat) (filters : Option PyDict) :
    List PyDict × List String :=
  let query_embedding := embed query
  let results := search query_embedding filters top_k
  let sources := results.map (fun hit =>
    ([("text", dictGet hit.payload "text" (PyVal.str "")),
      ("score", PyVal.num hit.score),
      ("filename", dictGet hit.payload "filename" (PyVal.str "Unknown")),
      ("chunk_index", dictGet hit.payload "chunk_index" (PyVal.num 0))] : PyDict))
  let context_texts := results.map (fun hit =>
    match dictGet hit.payload "text" (PyVal.str "") with
    | PyVal.str s => s
    | _ => "")
  (sources, context_texts)

/-- The named parameters of `RAGService.query` (rag_service.py:151). -/
def RAGService_query_params : List String := ["self", "query", "top_k", "filters"]

/-- The keyword arguments of the call in the chat endpoint
(app.py:313-317). -/
def chat_rag_call_kwargs : List String := ["query", "top_k", "initial_k"]

/-- Python keyword binding for a function without `**kwargs`: every keyword
must name a parameter. -/
def pyKwargsAccepted (params kwargs : List String) : Bool :=
  kwargs.all (fun k => params.contains k)

/-- Python call semantics at the binding step: a stray keyword raises
`TypeError` before the function body runs. -/
def pyCallMethod (params kwargs : List String) : Except String Unit :=
  if pyKwargsAccepted params kwargs then Except.ok ()
  else Except.error "TypeError: unexpected keyword argument"

/-- Claim C1 concerns a call that cannot bind: the chat endpoint passes
`initial_k`, which is not a parameter of `RAGService.query`, so the call
raises `TypeError` — the two-stage retrieval with reranking described by the
claim does not exist in `RAGService.query` (see `rag_query` above: a single
`top_k` search, no reranker). -/
theorem claim_C1 :
    pyCallMethod RAGService_query_params chat_rag_call_kwargs
        = Except.error "TypeError: unexpected keyword argument"
      ∧ "initial_k" ∈ chat_rag_call_kwargs
      ∧ "initial_k" ∉ RAGService_query_params :=
  ⟨rfl, by decide, by decide⟩

end Milvum
